import Mathlib

/-!
Verification development for the front end (lexer + parser) of a small
scripting language implemented in Rust (src/core/tokens.rs,
src/core/lexer.rs, src/core/parser.rs).

Modelling conventions:
- The input text is a `List Char` (the Rust code indexes the input with
  `str::chars().nth`, i.e. by character, never by byte).
- Machine integers (`usize` cursor fields) are `Nat`; the code only ever
  increments them, so no wrapping is involved.
- Rust `char::is_numeric` is modelled as `Char.isDigit`; the two agree on
  every ASCII character (Rust additionally accepts non-ASCII Unicode
  numerals, which no claim involves).
- Fallible constructors (`eyre::Result`) are modelled as `Option`
  (`none` = construction error).
- The `while` loops of the Rust code are modelled as fuel-indexed
  structural recursions; each wrapper passes a fuel that provably
  suffices (see the `*_eq` unfolding lemmas further down, which show the
  wrappers satisfy exactly the recurrences of the Rust loops, so the
  fuel-exhaustion branches are dead code).
- `Parser::parse_if_statement` is `todo!()` in the source, i.e. it
  panics; it is modelled as the `none` outcome of `Option`.
- The Rust parser owns its lexer and pulls tokens lazily; the lexer is
  deterministic and, once exhausted, returns `Token { EOF, "" }` forever.
  The model first materialises the token stream (`tokenize`, which stops
  at the first end-of-input token) and lets the parser pop from that
  list, substituting `Token { EOF, "" }` once the list is empty — the
  exact sequence of tokens the Rust parser would observe.
-/

/-- src/core/tokens.rs: `enum TokenType`. -/
inductive TokenType where
  | Illegal
  | EOF
  | Ident
  | Int
  | Assign
  | Eq
  | NotEq
  | Plus
  | Minus
  | Bang
  | Asterisk
  | Slash
  | Lt
  | Gt
  | Comma
  | Semicolon
  | LParen
  | RParen
  | LBrace
  | RBrace
  | Function
  | Let
  | True
  | False
  | If
  | Else
  | Return
  | NewLine
  deriving DecidableEq, Repr

/-- src/core/tokens.rs: `struct Token { r#type, literal }`. -/
structure Token where
  type : TokenType
  literal : String
  deriving DecidableEq, Repr

/-- src/core/tokens.rs: `Token::new`. -/
def Token.new (type : TokenType) (literal : String) : Token :=
  { type := type, literal := literal }

/-- src/core/lexer.rs: `LETTERS`, the characters valid in identifiers.
The Rust code builds `once(b'_').chain(b'a'..b'z').chain(b'A'..b'Z')`;
both `Range` expressions are half-open, so `z` (0x7a) and `Z` (0x5a) are
excluded: the list is `_` followed by `a`..`y` and `A`..`Y`. -/
def LETTERS : List Char :=
  '_' :: (((List.range 25).map (fun i => Char.ofNat (97 + i)))
    ++ ((List.range 25).map (fun i => Char.ofNat (65 + i))))

/-- src/core/lexer.rs: `WHITESPACE`, characters skipped while lexing. -/
def WHITESPACE : List Char :=
  [' ', '\t', '\r', '\n']

/-- src/core/lexer.rs: `KEYWORDS`, the reserved-keyword table (a
`phf_map` with exactly two entries). -/
def KEYWORDS : List (String × TokenType) :=
  [("fn", TokenType.Function), ("let", TokenType.Let)]

/-- src/core/lexer.rs: `is_letter`. -/
def is_letter (c : Char) : Bool :=
  LETTERS.contains c

/-- src/core/lexer.rs lines 116-119 (inside `read_identifier`): classify
an identifier-class run against `KEYWORDS`, defaulting to `Ident`. -/
def keyword_or_ident (s : String) : TokenType :=
  match KEYWORDS.lookup s with
  | some keyword_type => keyword_type
  | none => TokenType.Ident

/-- src/core/lexer.rs: `struct Lexer`. -/
structure Lexer where
  input : List Char
  position : Nat
  read_position : Nat
  char : Char
  deriving DecidableEq, Repr

/-- Rust `self.input.chars().nth(n)` with the `None => '\0'` default
applied by `read_char`. -/
def charAt (l : List Char) (n : Nat) : Char :=
  l.getD n ('\x00')

/-- src/core/lexer.rs: `Lexer::new`; fails exactly when there is no
character at position 0, i.e. on empty input. -/
def Lexer.new (text : List Char) : Option Lexer :=
  match text.head? with
  | some first_char =>
      some { input := text, position := 0, read_position := 1, char := first_char }
  | none => none

/-- src/core/lexer.rs: `Lexer::read_char`. -/
def Lexer.read_char (st : Lexer) : Lexer :=
  { st with
      char := charAt st.input st.read_position,
      position := st.read_position,
      read_position := st.read_position + 1 }

/-- Termination measure for the lexer's loops: every `read_char` from a
non-NUL current character strictly decreases it. -/
def lexMeasure (st : Lexer) : Nat :=
  2 * (st.input.length + 1 - st.read_position) + (if st.char = '\x00' then 0 else 1)

/-- src/core/lexer.rs: the loop of `Lexer::skip_whitspace` (sic),
fuel-indexed. -/
def skip_whitspaceF : Nat → Lexer → Lexer
  | 0, st => st
  | fuel + 1, st =>
      if WHITESPACE.contains st.char then skip_whitspaceF fuel st.read_char else st

/-- src/core/lexer.rs: `Lexer::skip_whitspace`. -/
def Lexer.skip_whitspace (st : Lexer) : Lexer :=
  skip_whitspaceF (lexMeasure st + 1) st

/-- src/core/lexer.rs: the character-collecting loop of
`Lexer::read_identifier`, fuel-indexed. -/
def read_identifierF : Nat → Lexer → List Char → Lexer × List Char
  | 0, st, letters => (st, letters)
  | fuel + 1, st, letters =>
      if is_letter st.char then
        read_identifierF fuel st.read_char (letters ++ [st.char])
      else
        (st, letters)

/-- src/core/lexer.rs: `Lexer::read_identifier`. -/
def Lexer.read_identifier (st : Lexer) : Token × Lexer :=
  let r := read_identifierF (lexMeasure st + 1) st []
  let s : String := String.mk r.2
  (Token.new (keyword_or_ident s) s, r.1)

/-- src/core/lexer.rs: the digit-collecting loop of `Lexer::read_number`,
fuel-indexed. -/
def read_numberF : Nat → Lexer → List Char → Lexer × List Char
  | 0, st, digits => (st, digits)
  | fuel + 1, st, digits =>
      if st.char.isDigit then
        read_numberF fuel st.read_char (digits ++ [st.char])
      else
        (st, digits)

/-- src/core/lexer.rs: `Lexer::read_number`. -/
def Lexer.read_number (st : Lexer) : Token × Lexer :=
  let r := read_numberF (lexMeasure st + 1) st []
  (Token.new TokenType.Int (String.mk r.2), r.1)

/-- src/core/lexer.rs lines 87-98: the single-character `match` of
`Lexer::next_token`. -/
def single_char_token (c : Char) : Token :=
  match c with
  | '=' => Token.new TokenType.Assign c.toString
  | ',' => Token.new TokenType.Comma c.toString
  | '+' => Token.new TokenType.Plus c.toString
  | ';' => Token.new TokenType.Semicolon c.toString
  | '(' => Token.new TokenType.LParen c.toString
  | ')' => Token.new TokenType.RParen c.toString
  | '\x7b' => Token.new TokenType.LBrace c.toString
  | '\x7d' => Token.new TokenType.RBrace c.toString
  | '\x00' => Token.new TokenType.EOF ""
  | _ => Token.new TokenType.Illegal c.toString

/-- src/core/lexer.rs: `Lexer::next_token`. -/
def Lexer.next_token (st : Lexer) : Token × Lexer :=
  let st1 := st.skip_whitspace
  if is_letter st1.char then
    st1.read_identifier
  else if st1.char.isDigit then
    st1.read_number
  else
    (single_char_token st1.char, st1.read_char)

/-- Repeated `next_token` calls, collected up to and including the first
end-of-input token (fuel-indexed; see `tokenize_eq`). -/
def tokenizeF : Nat → Lexer → List Token
  | 0, _ => []
  | fuel + 1, st =>
      let r := st.next_token
      if r.1.type = TokenType.EOF then [r.1] else r.1 :: tokenizeF fuel r.2

/-- The full token stream of a lexer, through the first end-of-input
token. -/
def tokenize (st : Lexer) : List Token :=
  tokenizeF (lexMeasure st + 1) st

/-- Convenience: the token stream of a source text (`none` when lexer
construction fails, i.e. on empty input). -/
def tokenize_text (text : List Char) : Option (List Token) :=
  (Lexer.new text).map tokenize

namespace ast

/-- src/core/parser.rs: `ast::Identifier`. -/
structure Identifier where
  name : String
  deriving DecidableEq, Repr

/-- src/core/parser.rs: `ast::Expression` — a bare list of tokens; the
source defines no structured expression nodes at all. The `RefCell`
wrapper around expression values is an interior-mutability artifact with
no observable role and is dropped. -/
structure Expression where
  tokens : List Token
  deriving DecidableEq, Repr

/-- src/core/parser.rs: `ast::LetStatement`. -/
structure LetStatement where
  token : Token
  identifier : Identifier
  value : Expression
  deriving DecidableEq, Repr

/-- src/core/parser.rs: `ast::ReturnStatement`. -/
structure ReturnStatement where
  token : Token
  value : Expression
  deriving DecidableEq, Repr

/-- src/core/parser.rs: `ast::ExpressionStatement`. -/
structure ExpressionStatement where
  token : Token
  expression : Expression
  deriving DecidableEq, Repr

/-- src/core/parser.rs: `ast::Statement`. -/
inductive Statement where
  | Assignment (s : LetStatement)
  | Return (s : ReturnStatement)
  | SingleExpression (s : ExpressionStatement)
  deriving DecidableEq, Repr

/-- src/core/parser.rs: `ast::Program`. -/
structure Program where
  statements : List Statement
  deriving DecidableEq, Repr

end ast

/-- src/core/parser.rs: `struct ParserError`. -/
structure ParserError where
  message : String
  line_num : Nat
  char_offset : Nat
  deriving DecidableEq, Repr

/-- src/core/parser.rs: `ParserError::new`. -/
def ParserError.new (message : String) (line_num : Nat) (char_offset : Nat) : ParserError :=
  { message := message, line_num := line_num, char_offset := char_offset }

/-- The token the Rust lexer returns on every call once its input is
exhausted: `Token::new(TokenType::EOF, "")`. -/
def eof_token : Token :=
  Token.new TokenType.EOF ""

/-- src/core/parser.rs: `struct Parser`. Instead of the owned `Lexer`,
the model carries the not-yet-pulled part of its (deterministic) token
stream; popping from it with `eof_token` as the fallback reproduces the
exact token sequence `Lexer::next_token` would deliver. -/
structure Parser where
  tokens : List Token
  current_token : Token
  peek_token : Token
  errors : List ParserError
  deriving DecidableEq, Repr

/-- src/core/parser.rs: `Parser::new` — build the lexer (failing on
empty input) and pull the first two tokens. -/
def Parser.new (text : List Char) : Option Parser :=
  match Lexer.new text with
  | none => none
  | some lexer =>
      let stream := tokenize lexer
      let first_token := stream.headD eof_token
      let second_token := stream.tail.headD eof_token
      some { tokens := stream.tail.tail,
             current_token := first_token,
             peek_token := second_token,
             errors := [] }

/-- src/core/parser.rs: `Parser::next_token` — shift `peek` into
`current` and pull the next token from the stream. -/
def Parser.next_token (p : Parser) : Parser :=
  match p.tokens with
  | [] => { p with current_token := p.peek_token, peek_token := eof_token }
  | t :: ts => { p with current_token := p.peek_token, peek_token := t, tokens := ts }

/-- src/core/parser.rs: `Parser::current_token_is_of_type`. -/
def Parser.current_token_is_of_type (p : Parser) (t : TokenType) : Bool :=
  p.current_token.type = t

/-- src/core/parser.rs: `Parser::next_token_is_of_type`. -/
def Parser.next_token_is_of_type (p : Parser) (t : TokenType) : Bool :=
  p.peek_token.type = t

/-- Termination measure for the parser's loops. -/
def pMeasure (p : Parser) : Nat :=
  2 * p.tokens.length + (if p.peek_token.type = TokenType.EOF then 0 else 1)

/-- src/core/parser.rs lines 313-320 and 354-361: the
consume-everything-until-a-semicolon loop shared (by textual duplication
in the source) by `parse_let_statement` and `parse_return_statement`;
collects the `peek` literals it walks over, and fails when it runs into
end-of-input before a semicolon. Fuel-indexed. -/
def consume_expressionF : Nat → Parser → List String →
    Parser × Except String (List String)
  | 0, p, exp_literals => (p, Except.ok exp_literals)
  | fuel + 1, p, exp_literals =>
      if p.current_token_is_of_type TokenType.Semicolon then
        (p, Except.ok exp_literals)
      else
        let exp_literals := exp_literals ++ [p.peek_token.literal]
        let p := p.next_token
        if p.current_token_is_of_type TokenType.EOF then
          (p, Except.error "Expected ';', found end of file (EOF)")
        else
          consume_expressionF fuel p exp_literals

/-- The semicolon-scan loop with its sufficient fuel. -/
def consume_expression (p : Parser) : Parser × Except String (List String) :=
  consume_expressionF (pMeasure p + 1) p []

/-- src/core/parser.rs lines 322-336 (and identically 363-377): join the
collected literals, dropping `";"`, into the single `Illegal` placeholder
token that stands for the unparsed expression. -/
def placeholder_expression (exp_literals : List String) : ast.Expression :=
  { tokens := [{ type := TokenType.Illegal,
                 literal := String.intercalate " " (exp_literals.filter (fun s => s != ";")) }] }

/-- src/core/parser.rs: `Parser::parse_let_statement`. Rust mutates
`self` in place and returns `eyre::Result<Statement>`; the model returns
the mutated parser next to the result, so consumed tokens stay consumed
on the error path exactly as in the source. -/
def Parser.parse_let_statement (p : Parser) : Parser × Except String ast.Statement :=
  if ¬ (p.next_token_is_of_type TokenType.Ident) then
    (p, Except.error ("Expected identifier, found '" ++ p.peek_token.literal ++ "'"))
  else
    let p := p.next_token
    let identifier : ast.Identifier := { name := p.current_token.literal }
    let let_statement_token := p.current_token
    if ¬ (p.next_token_is_of_type TokenType.Assign) then
      (p, Except.error ("Expected '=' operator, found " ++ p.peek_token.literal))
    else
      let p := p.next_token
      match consume_expression p with
      | (p, Except.error e) => (p, Except.error e)
      | (p, Except.ok exp_literals) =>
          (p, Except.ok (ast.Statement.Assignment
            { token := let_statement_token,
              identifier := identifier,
              value := placeholder_expression exp_literals }))

/-- src/core/parser.rs: `Parser::parse_return_statement`. -/
def Parser.parse_return_statement (p : Parser) : Parser × Except String ast.Statement :=
  match consume_expression p with
  | (p, Except.error e) => (p, Except.error e)
  | (p, Except.ok exp_literals) =>
      (p, Except.ok (ast.Statement.Return
        { token := { type := TokenType.Return, literal := "return" },
          value := placeholder_expression exp_literals }))

/-- src/core/parser.rs: `Parser::parse_if_statement` is `todo!()` — it
unconditionally panics. `none` models the panic. -/
def Parser.parse_if_statement (_p : Parser) : Option (Parser × ast.Statement) :=
  none

/-- src/core/parser.rs lines 224-259: one execution of the statement
dispatch `match` in the body of `parse_program`. Returns the updated
parser, the updated diagnostic line counter, and the statement produced
(if any); `none` models the panic of the `TokenType::If` arm. -/
def parse_statement_dispatch (p : Parser) (line_num : Nat) :
    Option (Parser × Nat × Option ast.Statement) :=
  match p.current_token.type with
  | TokenType.NewLine => some (p, line_num + 1, none)
  | TokenType.Let =>
      match p.parse_let_statement with
      | (q, Except.ok s) => some (q, line_num, some s)
      | (q, Except.error e) =>
          some ({ q with errors := q.errors ++ [ParserError.new e line_num 0] },
            line_num, none)
  | TokenType.If =>
      match p.parse_if_statement with
      | some (q, s) => some (q, line_num, some s)
      | none => none
  | TokenType.Return =>
      match p.parse_return_statement with
      | (q, Except.ok s) => some (q, line_num, some s)
      | (q, Except.error e) =>
          some ({ q with errors := q.errors ++ [ParserError.new e line_num 0] },
            line_num, none)
  | _ =>
      some ({ p with errors := p.errors ++
          [ParserError.new ("Unsupported token: '" ++ p.current_token.literal ++ "'") line_num 0] },
        line_num, none)

/-- src/core/parser.rs lines 214-271: the `loop` of `parse_program`,
fuel-indexed: exit when `peek` is end-of-input, otherwise dispatch on
`current`, append the produced statement (if any), advance, repeat. -/
def parse_programF : Nat → Parser → List ast.Statement → Nat →
    Option (List ast.Statement × Parser)
  | 0, p, statements, _ => some (statements, p)
  | fuel + 1, p, statements, line_num =>
      if p.peek_token.type = TokenType.EOF then
        some (statements, p)
      else
        match parse_statement_dispatch p line_num with
        | none => none
        | some (q, line_num2, opt_statement) =>
            let statements := match opt_statement with
              | some s => statements ++ [s]
              | none => statements
            parse_programF fuel q.next_token statements line_num2

/-- src/core/parser.rs: `Parser::parse_program`; the final parser is
returned next to the program so the accumulated `errors` stay
observable. `none` models the `todo!()` panic (never reached from a
real token stream, see `C1_parse_program_never_panics`). -/
def Parser.parse_program (p : Parser) : Option (ast.Program × Parser) :=
  match parse_programF (pMeasure p + 1) p [] 1 with
  | none => none
  | some (statements, q) => some ({ statements := statements }, q)

/-- Convenience: parse a source text from scratch (`none` = construction
failure on empty input, or a panic). -/
def parse_text (text : List Char) : Option (ast.Program × Parser) :=
  match Parser.new text with
  | none => none
  | some p => p.parse_program

/-- The identifier names of the `LetStatement`s of a program, in order. -/
def let_identifier_names (prog : ast.Program) : List String :=
  prog.statements.filterMap (fun s =>
    match s with
    | ast.Statement.Assignment ls => some ls.identifier.name
    | _ => none)

/-- The round-trip input of the spec's testable-properties section. -/
def c2input : List Char :=
  ("let five = 5;\nlet ten = 10;\nlet add = fn(x, y)\x7b x + y; \x7d;\nlet result = add(five, ten);\n").data

/-- The token kinds the lexer can actually emit: everything else in
`TokenType` (`Eq`, `NotEq`, `Minus`, `Bang`, `Asterisk`, `Slash`, `Lt`,
`Gt`, `True`, `False`, `If`, `Else`, `Return`, `NewLine`) is
unreachable. -/
def emitted_types : List TokenType :=
  [TokenType.Illegal, TokenType.EOF, TokenType.Ident, TokenType.Int,
   TokenType.Assign, TokenType.Comma, TokenType.Plus, TokenType.Semicolon,
   TokenType.LParen, TokenType.RParen, TokenType.LBrace, TokenType.RBrace,
   TokenType.Function, TokenType.Let]

/-! ### Invariants carried through a parse -/

/-- All of a parser's buffered tokens were produced by the lexer (their
kinds lie in `emitted_types`). -/
def StreamOK (p : Parser) : Prop :=
  p.current_token.type ∈ emitted_types ∧ p.peek_token.type ∈ emitted_types ∧
    ∀ t ∈ p.tokens, t.type ∈ emitted_types

/-- Every recorded diagnostic sits on line 1 with character offset 0. -/
def ErrOK (errs : List ParserError) : Prop :=
  ∀ e ∈ errs, e.line_num = 1 ∧ e.char_offset = 0

/-- The statement's expression slot (if it is a let or return statement)
is a `placeholder_expression`: a single `Illegal`-kind token holding the
space-joined scanned literals with `";"` filtered out. -/
def placeholder_shaped (s : ast.Statement) : Prop :=
  (∀ ls, s = ast.Statement.Assignment ls →
    ∃ lits : List String, ls.value = placeholder_expression lits) ∧
  (∀ rs, s = ast.Statement.Return rs →
    ∃ lits : List String, rs.value = placeholder_expression lits)

/-! ### Termination and stream lemmas for the lexer -/

theorem whitespace_char_ne_nul (c : Char) (h : WHITESPACE.contains c = true) :
    c ≠ '\x00' := by
  intro h0
  subst h0
  revert h
  decide

theorem letter_char_ne_nul (c : Char) (h : is_letter c = true) :
    c ≠ '\x00' := by
  intro h0
  subst h0
  revert h
  decide

theorem digit_char_ne_nul (c : Char) (h : c.isDigit = true) :
    c ≠ '\x00' := by
  intro h0
  subst h0
  revert h
  decide

theorem lexMeasure_read_char_lt (st : Lexer) (h : st.char ≠ '\x00') :
    lexMeasure st.read_char < lexMeasure st := by
  unfold lexMeasure Lexer.read_char charAt
  simp only
  rw [if_neg h]
  rcases Nat.lt_or_ge st.read_position (st.input.length + 1) with hlt | hge
  · split <;> omega
  · have hdef : st.input.getD st.read_position ('\x00') = '\x00' :=
      List.getD_eq_default _ _ (by omega)
    rw [hdef]
    split
    · omega
    · rename_i hcontra
      exact absurd rfl hcontra

theorem lexMeasure_skip_whitspaceF_le (fuel : Nat) (st : Lexer) :
    lexMeasure (skip_whitspaceF fuel st) ≤ lexMeasure st := by
  induction fuel generalizing st with
  | zero => simp [skip_whitspaceF]
  | succ n ih =>
      unfold skip_whitspaceF
      split
      · exact le_trans (ih st.read_char)
          (le_of_lt (lexMeasure_read_char_lt st (whitespace_char_ne_nul _ (by assumption))))
      · exact le_rfl

theorem lexMeasure_read_identifierF_le (fuel : Nat) (st : Lexer) (letters : List Char) :
    lexMeasure (read_identifierF fuel st letters).1 ≤ lexMeasure st := by
  induction fuel generalizing st letters with
  | zero => simp [read_identifierF]
  | succ n ih =>
      unfold read_identifierF
      split
      · exact le_trans (ih st.read_char _)
          (le_of_lt (lexMeasure_read_char_lt st (letter_char_ne_nul _ (by assumption))))
      · exact le_rfl

theorem lexMeasure_read_numberF_le (fuel : Nat) (st : Lexer) (digits : List Char) :
    lexMeasure (read_numberF fuel st digits).1 ≤ lexMeasure st := by
  induction fuel generalizing st digits with
  | zero => simp [read_numberF]
  | succ n ih =>
      unfold read_numberF
      split
      · exact le_trans (ih st.read_char _)
          (le_of_lt (lexMeasure_read_char_lt st (digit_char_ne_nul _ (by assumption))))
      · exact le_rfl

theorem single_char_token_eof_iff (c : Char) :
    (single_char_token c).type = TokenType.EOF ↔ c = '\x00' := by
  constructor
  · intro h
    unfold single_char_token at h
    split at h <;> simp_all [Token.new]
  · intro h
    subst h
    rfl

theorem lexMeasure_skip_le (st : Lexer) :
    lexMeasure st.skip_whitspace ≤ lexMeasure st := by
  rw [Lexer.skip_whitspace]
  exact lexMeasure_skip_whitspaceF_le _ _

theorem lexMeasure_read_char_le (st : Lexer) :
    lexMeasure st.read_char ≤ lexMeasure st := by
  by_cases h : st.char = '\x00'
  · unfold lexMeasure Lexer.read_char charAt
    simp only
    rw [if_pos h]
    rcases Nat.lt_or_ge st.read_position (st.input.length + 1) with hlt | hge
    · split <;> omega
    · have hdef : st.input.getD st.read_position ('\x00') = '\x00' :=
        List.getD_eq_default _ _ (by omega)
      rw [hdef]
      split
      · omega
      · rename_i hcontra
        exact absurd rfl hcontra
  · exact le_of_lt (lexMeasure_read_char_lt st h)

theorem lexMeasure_read_identifier_lt (st : Lexer) (h : is_letter st.char = true) :
    lexMeasure (st.read_identifier).2 < lexMeasure st := by
  rw [Lexer.read_identifier]
  simp only [read_identifierF]
  rw [if_pos h]
  exact lt_of_le_of_lt (lexMeasure_read_identifierF_le _ _ _)
    (lexMeasure_read_char_lt st (letter_char_ne_nul _ h))

theorem lexMeasure_read_number_lt (st : Lexer) (h : st.char.isDigit = true) :
    lexMeasure (st.read_number).2 < lexMeasure st := by
  rw [Lexer.read_number]
  simp only [read_numberF]
  rw [if_pos h]
  exact lt_of_le_of_lt (lexMeasure_read_numberF_le _ _ _)
    (lexMeasure_read_char_lt st (digit_char_ne_nul _ h))

theorem lexMeasure_next_token_le (st : Lexer) :
    lexMeasure (st.next_token).2 ≤ lexMeasure st := by
  have hskip : lexMeasure st.skip_whitspace ≤ lexMeasure st := lexMeasure_skip_le st
  simp only [Lexer.next_token]
  by_cases hlet : is_letter st.skip_whitspace.char = true
  · rw [if_pos hlet]
    exact le_trans (le_of_lt (lexMeasure_read_identifier_lt _ hlet)) hskip
  · rw [if_neg hlet]
    by_cases hdig : st.skip_whitspace.char.isDigit = true
    · rw [if_pos hdig]
      exact le_trans (le_of_lt (lexMeasure_read_number_lt _ hdig)) hskip
    · rw [if_neg hdig]
      exact le_trans (lexMeasure_read_char_le _) hskip

theorem lexMeasure_next_token_lt (st : Lexer)
    (h : (st.next_token).1.type ≠ TokenType.EOF) :
    lexMeasure (st.next_token).2 < lexMeasure st := by
  have hskip : lexMeasure st.skip_whitspace ≤ lexMeasure st := lexMeasure_skip_le st
  simp only [Lexer.next_token] at h ⊢
  by_cases hlet : is_letter st.skip_whitspace.char = true
  · rw [if_pos hlet]
    exact lt_of_lt_of_le (lexMeasure_read_identifier_lt _ hlet) hskip
  · rw [if_neg hlet] at h ⊢
    by_cases hdig : st.skip_whitspace.char.isDigit = true
    · rw [if_pos hdig]
      exact lt_of_lt_of_le (lexMeasure_read_number_lt _ hdig) hskip
    · rw [if_neg hdig] at h ⊢
      have hnul : st.skip_whitspace.char ≠ '\x00' := by
        intro h0
        exact h ((single_char_token_eof_iff _).mpr h0)
      exact lt_of_lt_of_le (lexMeasure_read_char_lt _ hnul) hskip

theorem tokenizeF_irrel (n : Nat) : ∀ (m : Nat) (st : Lexer),
    lexMeasure st < n → lexMeasure st < m → tokenizeF n st = tokenizeF m st := by
  induction n with
  | zero =>
      intro m st h1 _
      exact absurd h1 (Nat.not_lt_zero _)
  | succ n ih =>
      intro m st h1 h2
      cases m with
      | zero => exact absurd h2 (Nat.not_lt_zero _)
      | succ m =>
          simp only [tokenizeF]
          by_cases he : (st.next_token).1.type = TokenType.EOF
          · rw [if_pos he, if_pos he]
          · rw [if_neg he, if_neg he]
            have hlt := lexMeasure_next_token_lt st he
            rw [ih m (st.next_token).2 (by omega) (by omega)]

/-- `tokenize` satisfies exactly the recurrence of the Rust
token-pulling loop: the fuel passed by the wrapper never runs out. -/
theorem tokenize_eq (st : Lexer) :
    tokenize st = (if (st.next_token).1.type = TokenType.EOF then [(st.next_token).1]
      else (st.next_token).1 :: tokenize (st.next_token).2) := by
  conv_lhs => rw [tokenize]
  simp only [tokenizeF]
  by_cases he : (st.next_token).1.type = TokenType.EOF
  · rw [if_pos he, if_pos he]
  · rw [if_neg he, if_neg he]
    rw [tokenize]
    rw [tokenizeF_irrel _ _ _ (lexMeasure_next_token_lt st he) (Nat.lt_succ_self _)]

theorem keyword_or_ident_mem (s : String) :
    keyword_or_ident s = TokenType.Function ∨ keyword_or_ident s = TokenType.Let ∨
      keyword_or_ident s = TokenType.Ident := by
  by_cases h1 : s = "fn"
  · subst h1
    left
    rfl
  · by_cases h2 : s = "let"
    · subst h2
      right
      left
      rfl
    · right
      right
      have b1 : (s == "fn") = false := by
        simp [h1]
      have b2 : (s == "let") = false := by
        simp [h2]
      simp [keyword_or_ident, KEYWORDS, List.lookup, b1, b2]

theorem single_char_token_type_mem (c : Char) :
    (single_char_token c).type ∈ emitted_types := by
  unfold single_char_token
  split <;> simp [Token.new, emitted_types]

theorem next_token_type_mem (st : Lexer) :
    (st.next_token).1.type ∈ emitted_types := by
  simp only [Lexer.next_token]
  by_cases hlet : is_letter st.skip_whitspace.char = true
  · rw [if_pos hlet]
    simp only [Lexer.read_identifier, Token.new]
    rcases keyword_or_ident_mem
        (String.mk (read_identifierF (lexMeasure st.skip_whitspace + 1) st.skip_whitspace []).2)
      with h | h | h <;> rw [h] <;> simp [emitted_types]
  · rw [if_neg hlet]
    by_cases hdig : st.skip_whitspace.char.isDigit = true
    · rw [if_pos hdig]
      simp [Lexer.read_number, Token.new, emitted_types]
    · rw [if_neg hdig]
      exact single_char_token_type_mem _

theorem tokenizeF_type_mem (fuel : Nat) (st : Lexer) (t : Token)
    (h : t ∈ tokenizeF fuel st) : t.type ∈ emitted_types := by
  induction fuel generalizing st with
  | zero => simp [tokenizeF] at h
  | succ n ih =>
      simp only [tokenizeF] at h
      by_cases he : (st.next_token).1.type = TokenType.EOF
      · rw [if_pos he] at h
        simp only [List.mem_singleton] at h
        subst h
        exact next_token_type_mem st
      · rw [if_neg he] at h
        rcases List.mem_cons.mp h with h | h
        · subst h
          exact next_token_type_mem st
        · exact ih _ h

theorem tokenize_type_mem (st : Lexer) (t : Token) (h : t ∈ tokenize st) :
    t.type ∈ emitted_types := by
  exact tokenizeF_type_mem _ _ _ h

theorem eof_token_type_mem : eof_token.type ∈ emitted_types := by
  decide

/-! ### Termination lemmas for the parser's loops -/

theorem current_is_of_type_iff (p : Parser) (t : TokenType) :
    p.current_token_is_of_type t = true ↔ p.current_token.type = t := by
  simp [Parser.current_token_is_of_type]

theorem next_is_of_type_iff (p : Parser) (t : TokenType) :
    p.next_token_is_of_type t = true ↔ p.peek_token.type = t := by
  simp [Parser.next_token_is_of_type]

theorem pMeasure_errors_eq (p : Parser) (errs : List ParserError) :
    pMeasure { p with errors := errs } = pMeasure p := by
  rfl

theorem pMeasure_next_le (p : Parser) :
    pMeasure p.next_token ≤ pMeasure p := by
  unfold pMeasure Parser.next_token
  cases htok : p.tokens with
  | nil => simp [eof_token, Token.new]
  | cons t ts =>
      simp only [List.length_cons]
      split <;> split <;> omega

theorem pMeasure_next_lt_of_current (p : Parser)
    (h : p.next_token.current_token.type ≠ TokenType.EOF) :
    pMeasure p.next_token < pMeasure p := by
  cases htok : p.tokens with
  | nil =>
      have hcur : p.next_token.current_token = p.peek_token := by
        simp [Parser.next_token, htok]
      rw [hcur] at h
      simp only [pMeasure, Parser.next_token, htok]
      simp only [List.length_nil, eof_token, Token.new]
      rw [if_neg h]
      simp
  | cons t ts =>
      simp only [pMeasure, Parser.next_token, htok]
      simp only [List.length_cons]
      split <;> split <;> omega

theorem pMeasure_consumeF_le (fuel : Nat) (p : Parser) (acc : List String) :
    pMeasure (consume_expressionF fuel p acc).1 ≤ pMeasure p := by
  induction fuel generalizing p acc with
  | zero => simp [consume_expressionF]
  | succ n ih =>
      simp only [consume_expressionF]
      by_cases hsem : p.current_token_is_of_type TokenType.Semicolon = true
      · rw [if_pos hsem]
      · rw [if_neg hsem]
        by_cases heof : (p.next_token).current_token_is_of_type TokenType.EOF = true
        · rw [if_pos heof]
          exact pMeasure_next_le p
        · rw [if_neg heof]
          exact le_trans (ih _ _) (pMeasure_next_le p)

theorem pMeasure_consume_le (p : Parser) :
    pMeasure (consume_expression p).1 ≤ pMeasure p := by
  exact pMeasure_consumeF_le _ _ _

theorem pMeasure_parse_let_le (p : Parser) :
    pMeasure (p.parse_let_statement).1 ≤ pMeasure p := by
  unfold Parser.parse_let_statement
  by_cases h1 : p.next_token_is_of_type TokenType.Ident = true
  · rw [if_neg (by simpa using h1)]
    by_cases h2 : (p.next_token).next_token_is_of_type TokenType.Assign = true
    · rw [if_neg (by simpa using h2)]
      rcases hc : consume_expression p.next_token.next_token with ⟨q, r⟩
      simp only [hc]
      have hle : pMeasure q ≤ pMeasure p.next_token.next_token := by
        have h0 := pMeasure_consume_le p.next_token.next_token
        rw [hc] at h0
        exact h0
      have hle2 : pMeasure p.next_token.next_token ≤ pMeasure p :=
        le_trans (pMeasure_next_le _) (pMeasure_next_le _)
      cases r with
      | error e => exact le_trans hle hle2
      | ok lits => exact le_trans hle hle2
    · rw [if_pos (by simpa using h2)]
      exact pMeasure_next_le p
  · rw [if_pos (by simpa using h1)]

theorem pMeasure_parse_return_le (p : Parser) :
    pMeasure (p.parse_return_statement).1 ≤ pMeasure p := by
  unfold Parser.parse_return_statement
  rcases hc : consume_expression p with ⟨q, r⟩
  have hle : pMeasure q ≤ pMeasure p := by
    have h0 := pMeasure_consume_le p
    rw [hc] at h0
    exact h0
  cases r with
  | error e => exact hle
  | ok lits => exact hle

theorem pMeasure_dispatch_le (p : Parser) (line_num line_num2 : Nat) (q : Parser)
    (opt : Option ast.Statement)
    (hd : parse_statement_dispatch p line_num = some (q, line_num2, opt)) :
    pMeasure q ≤ pMeasure p := by
  unfold parse_statement_dispatch at hd
  split at hd
  · simp only [Option.some.injEq, Prod.mk.injEq] at hd
    obtain ⟨hq, -, -⟩ := hd
    subst hq
    exact le_rfl
  · split at hd <;> rename_i q2 x harm <;>
      simp only [Option.some.injEq, Prod.mk.injEq] at hd <;>
      obtain ⟨hq, -, -⟩ := hd <;> subst hq
    · have h0 := pMeasure_parse_let_le p
      rw [harm] at h0
      exact h0
    · have h0 := pMeasure_parse_let_le p
      rw [harm] at h0
      have he : pMeasure { q2 with errors := q2.errors ++ [ParserError.new x line_num 0] } =
          pMeasure q2 := rfl
      rw [he]
      exact h0
  · simp [Parser.parse_if_statement] at hd
  · split at hd <;> rename_i q2 x harm <;>
      simp only [Option.some.injEq, Prod.mk.injEq] at hd <;>
      obtain ⟨hq, -, -⟩ := hd <;> subst hq
    · have h0 := pMeasure_parse_return_le p
      rw [harm] at h0
      exact h0
    · have h0 := pMeasure_parse_return_le p
      rw [harm] at h0
      have he : pMeasure { q2 with errors := q2.errors ++ [ParserError.new x line_num 0] } =
          pMeasure q2 := rfl
      rw [he]
      exact h0
  · simp only [Option.some.injEq, Prod.mk.injEq] at hd
    obtain ⟨hq, -, -⟩ := hd
    subst hq
    exact le_rfl

theorem pMeasure_step_lt (p : Parser) (line_num line_num2 : Nat) (q : Parser)
    (opt : Option ast.Statement)
    (hd : parse_statement_dispatch p line_num = some (q, line_num2, opt))
    (hpeek : p.peek_token.type ≠ TokenType.EOF) :
    pMeasure q.next_token < pMeasure p := by
  have hq : pMeasure q ≤ pMeasure p := pMeasure_dispatch_le p line_num line_num2 q opt hd
  cases hqt : q.tokens with
  | nil =>
      have hz : pMeasure q.next_token = 0 := by
        simp [pMeasure, Parser.next_token, hqt, eof_token, Token.new]
      have hp : 1 ≤ pMeasure p := by
        unfold pMeasure
        rw [if_neg hpeek]
        omega
      omega
  | cons t ts =>
      have h1 : pMeasure q.next_token < pMeasure q := by
        simp only [pMeasure, Parser.next_token, hqt]
        simp only [List.length_cons]
        split <;> split <;> omega
      omega

theorem consume_expressionF_irrel (n : Nat) : ∀ (m : Nat) (p : Parser) (acc : List String),
    pMeasure p < n → pMeasure p < m →
    consume_expressionF n p acc = consume_expressionF m p acc := by
  induction n with
  | zero =>
      intro m p acc h1 _
      exact absurd h1 (Nat.not_lt_zero _)
  | succ n ih =>
      intro m p acc h1 h2
      cases m with
      | zero => exact absurd h2 (Nat.not_lt_zero _)
      | succ m =>
          simp only [consume_expressionF]
          by_cases hsem : p.current_token_is_of_type TokenType.Semicolon = true
          · rw [if_pos hsem, if_pos hsem]
          · rw [if_neg hsem, if_neg hsem]
            by_cases heof : (p.next_token).current_token_is_of_type TokenType.EOF = true
            · rw [if_pos heof, if_pos heof]
            · rw [if_neg heof, if_neg heof]
              have hcur : p.next_token.current_token.type ≠ TokenType.EOF := by
                intro h0
                exact heof ((current_is_of_type_iff _ _).mpr h0)
              have hlt := pMeasure_next_lt_of_current p hcur
              exact ih m p.next_token _ (by omega) (by omega)

/-- The semicolon-scan runs with enough fuel: `consume_expression`
restricted to the empty accumulator, generalised here to any
accumulator, satisfies exactly the recurrence of the Rust `while` loop
in `parse_let_statement`/`parse_return_statement`. -/
theorem consume_expressionF_fuel_eq (p : Parser) (acc : List String) :
    consume_expressionF (pMeasure p + 1) p acc =
      (if p.current_token_is_of_type TokenType.Semicolon then (p, Except.ok acc)
       else if (p.next_token).current_token_is_of_type TokenType.EOF then
         (p.next_token, Except.error "Expected ';', found end of file (EOF)")
       else consume_expressionF (pMeasure p.next_token + 1) p.next_token
         (acc ++ [p.peek_token.literal])) := by
  conv_lhs => simp only [consume_expressionF]
  by_cases hsem : p.current_token_is_of_type TokenType.Semicolon = true
  · rw [if_pos hsem, if_pos hsem]
  · rw [if_neg hsem, if_neg hsem]
    by_cases heof : (p.next_token).current_token_is_of_type TokenType.EOF = true
    · rw [if_pos heof, if_pos heof]
    · rw [if_neg heof, if_neg heof]
      have hcur : p.next_token.current_token.type ≠ TokenType.EOF := by
        intro h0
        exact heof ((current_is_of_type_iff _ _).mpr h0)
      have hlt := pMeasure_next_lt_of_current p hcur
      exact consume_expressionF_irrel _ _ _ _ (by omega) (by omega)

theorem parse_programF_irrel (n : Nat) : ∀ (m : Nat) (p : Parser)
    (stmts : List ast.Statement) (line_num : Nat),
    pMeasure p < n → pMeasure p < m →
    parse_programF n p stmts line_num = parse_programF m p stmts line_num := by
  induction n with
  | zero =>
      intro m p stmts line_num h1 _
      exact absurd h1 (Nat.not_lt_zero _)
  | succ n ih =>
      intro m p stmts line_num h1 h2
      cases m with
      | zero => exact absurd h2 (Nat.not_lt_zero _)
      | succ m =>
          simp only [parse_programF]
          by_cases hpeek : p.peek_token.type = TokenType.EOF
          · rw [if_pos hpeek, if_pos hpeek]
          · rw [if_neg hpeek, if_neg hpeek]
            rcases hd : parse_statement_dispatch p line_num with _ | ⟨q, line_num2, opt⟩
            · rfl
            · simp only
              have hlt := pMeasure_step_lt p line_num line_num2 q opt hd hpeek
              cases opt <;> simp only <;>
                exact ih m q.next_token _ _ (by omega) (by omega)

/-- The statement loop of `parse_program` runs with enough fuel: it
satisfies exactly the recurrence of the Rust `loop`. -/
theorem parse_programF_fuel_eq (p : Parser) (stmts : List ast.Statement) (line_num : Nat) :
    parse_programF (pMeasure p + 1) p stmts line_num =
      (if p.peek_token.type = TokenType.EOF then some (stmts, p)
       else match parse_statement_dispatch p line_num with
         | none => none
         | some (q, line_num2, opt) =>
             parse_programF (pMeasure q.next_token + 1) q.next_token
               (match opt with
                 | some s => stmts ++ [s]
                 | none => stmts) line_num2) := by
  conv_lhs => simp only [parse_programF]
  by_cases hpeek : p.peek_token.type = TokenType.EOF
  · rw [if_pos hpeek, if_pos hpeek]
  · rw [if_neg hpeek, if_neg hpeek]
    rcases hd : parse_statement_dispatch p line_num with _ | ⟨q, line_num2, opt⟩
    · rfl
    · simp only
      have hlt := pMeasure_step_lt p line_num line_num2 q opt hd hpeek
      cases opt <;> simp only <;>
        exact parse_programF_irrel _ _ _ _ _ (by omega) (by omega)

theorem skip_whitspaceF_irrel (n : Nat) : ∀ (m : Nat) (st : Lexer),
    lexMeasure st < n → lexMeasure st < m →
    skip_whitspaceF n st = skip_whitspaceF m st := by
  induction n with
  | zero =>
      intro m st h1 _
      exact absurd h1 (Nat.not_lt_zero _)
  | succ n ih =>
      intro m st h1 h2
      cases m with
      | zero => exact absurd h2 (Nat.not_lt_zero _)
      | succ m =>
          simp only [skip_whitspaceF]
          by_cases hws : WHITESPACE.contains st.char = true
          · rw [if_pos hws, if_pos hws]
            have hlt := lexMeasure_read_char_lt st (whitespace_char_ne_nul _ hws)
            exact ih m st.read_char (by omega) (by omega)
          · rw [if_neg hws, if_neg hws]

/-- `skip_whitspace` satisfies exactly the recurrence of the Rust
whitespace loop. -/
theorem skip_whitspace_eq (st : Lexer) :
    st.skip_whitspace =
      (if WHITESPACE.contains st.char then st.read_char.skip_whitspace else st) := by
  rw [Lexer.skip_whitspace, Lexer.skip_whitspace]
  conv_lhs => simp only [skip_whitspaceF]
  by_cases hws : WHITESPACE.contains st.char = true
  · rw [if_pos hws, if_pos hws]
    have hlt := lexMeasure_read_char_lt st (whitespace_char_ne_nul _ hws)
    exact skip_whitspaceF_irrel _ _ _ (by omega) (by omega)
  · rw [if_neg hws, if_neg hws]

theorem read_identifierF_irrel (n : Nat) : ∀ (m : Nat) (st : Lexer) (letters : List Char),
    lexMeasure st < n → lexMeasure st < m →
    read_identifierF n st letters = read_identifierF m st letters := by
  induction n with
  | zero =>
      intro m st letters h1 _
      exact absurd h1 (Nat.not_lt_zero _)
  | succ n ih =>
      intro m st letters h1 h2
      cases m with
      | zero => exact absurd h2 (Nat.not_lt_zero _)
      | succ m =>
          simp only [read_identifierF]
          by_cases hlet : is_letter st.char = true
          · rw [if_pos hlet, if_pos hlet]
            have hlt := lexMeasure_read_char_lt st (letter_char_ne_nul _ hlet)
            exact ih m st.read_char _ (by omega) (by omega)
          · rw [if_neg hlet, if_neg hlet]

/-- The identifier-collecting loop satisfies exactly the recurrence of
the Rust `while is_letter` loop, for any accumulator. -/
theorem read_identifierF_fuel_eq (st : Lexer) (letters : List Char) :
    read_identifierF (lexMeasure st + 1) st letters =
      (if is_letter st.char then
        read_identifierF (lexMeasure st.read_char + 1) st.read_char (letters ++ [st.char])
      else (st, letters)) := by
  conv_lhs => simp only [read_identifierF]
  by_cases hlet : is_letter st.char = true
  · rw [if_pos hlet, if_pos hlet]
    have hlt := lexMeasure_read_char_lt st (letter_char_ne_nul _ hlet)
    exact read_identifierF_irrel _ _ _ _ (by omega) (by omega)
  · rw [if_neg hlet, if_neg hlet]

theorem read_numberF_irrel (n : Nat) : ∀ (m : Nat) (st : Lexer) (digits : List Char),
    lexMeasure st < n → lexMeasure st < m →
    read_numberF n st digits = read_numberF m st digits := by
  induction n with
  | zero =>
      intro m st digits h1 _
      exact absurd h1 (Nat.not_lt_zero _)
  | succ n ih =>
      intro m st digits h1 h2
      cases m with
      | zero => exact absurd h2 (Nat.not_lt_zero _)
      | succ m =>
          simp only [read_numberF]
          by_cases hdig : st.char.isDigit = true
          · rw [if_pos hdig, if_pos hdig]
            have hlt := lexMeasure_read_char_lt st (digit_char_ne_nul _ hdig)
            exact ih m st.read_char _ (by omega) (by omega)
          · rw [if_neg hdig, if_neg hdig]

/-- The digit-collecting loop satisfies exactly the recurrence of the
Rust `while is_numeric` loop, for any accumulator. -/
theorem read_numberF_fuel_eq (st : Lexer) (digits : List Char) :
    read_numberF (lexMeasure st + 1) st digits =
      (if st.char.isDigit then
        read_numberF (lexMeasure st.read_char + 1) st.read_char (digits ++ [st.char])
      else (st, digits)) := by
  conv_lhs => simp only [read_numberF]
  by_cases hdig : st.char.isDigit = true
  · rw [if_pos hdig, if_pos hdig]
    have hlt := lexMeasure_read_char_lt st (digit_char_ne_nul _ hdig)
    exact read_numberF_irrel _ _ _ _ (by omega) (by omega)
  · rw [if_neg hdig, if_neg hdig]

theorem next_token_errors (p : Parser) : p.next_token.errors = p.errors := by
  cases htok : p.tokens <;> simp [Parser.next_token, htok]

theorem StreamOK_errors (p : Parser) (errs : List ParserError) (h : StreamOK p) :
    StreamOK { p with errors := errs } := by
  exact h

theorem StreamOK_next (p : Parser) (h : StreamOK p) : StreamOK p.next_token := by
  obtain ⟨h1, h2, h3⟩ := h
  unfold StreamOK
  cases htok : p.tokens with
  | nil =>
      simp only [Parser.next_token, htok]
      refine ⟨h2, eof_token_type_mem, ?_⟩
      intro t ht
      simp at ht
  | cons t ts =>
      simp only [Parser.next_token, htok]
      refine ⟨h2, h3 t ?_, fun u hu => h3 u ?_⟩
      · rw [htok]
        exact List.mem_cons_self _ _
      · rw [htok]
        exact List.mem_cons_of_mem _ hu

theorem consume_props (fuel : Nat) (p : Parser) (acc : List String) :
    (consume_expressionF fuel p acc).1.errors = p.errors ∧
    (StreamOK p → StreamOK (consume_expressionF fuel p acc).1) := by
  induction fuel generalizing p acc with
  | zero => exact ⟨rfl, fun h => h⟩
  | succ n ih =>
      simp only [consume_expressionF]
      by_cases hsem : p.current_token_is_of_type TokenType.Semicolon = true
      · rw [if_pos hsem]
        exact ⟨rfl, fun h => h⟩
      · rw [if_neg hsem]
        by_cases heof : (p.next_token).current_token_is_of_type TokenType.EOF = true
        · rw [if_pos heof]
          exact ⟨next_token_errors p, fun h => StreamOK_next p h⟩
        · rw [if_neg heof]
          obtain ⟨e1, s1⟩ := ih p.next_token (acc ++ [p.peek_token.literal])
          exact ⟨by rw [e1, next_token_errors], fun h => s1 (StreamOK_next p h)⟩

theorem parse_let_props (p : Parser) :
    (p.parse_let_statement).1.errors = p.errors ∧
    (StreamOK p → StreamOK (p.parse_let_statement).1) ∧
    (∀ q s, p.parse_let_statement = (q, Except.ok s) → placeholder_shaped s) := by
  unfold Parser.parse_let_statement
  by_cases h1 : p.next_token_is_of_type TokenType.Ident = true
  · rw [if_neg (by simpa using h1)]
    by_cases h2 : (p.next_token).next_token_is_of_type TokenType.Assign = true
    · rw [if_neg (by simpa using h2)]
      rcases hc : consume_expression p.next_token.next_token with ⟨q2, r⟩
      simp only [hc]
      have hcp := consume_props (pMeasure p.next_token.next_token + 1) p.next_token.next_token []
      rw [consume_expression] at hc
      rw [hc] at hcp
      obtain ⟨he, hs⟩ := hcp
      simp only at he hs
      cases r with
      | error e =>
          refine ⟨?_, ?_, ?_⟩
          · rw [he, next_token_errors, next_token_errors]
          · intro h
            exact hs (StreamOK_next _ (StreamOK_next _ h))
          · intro q s hq
            simp at hq
      | ok lits =>
          refine ⟨?_, ?_, ?_⟩
          · rw [he, next_token_errors, next_token_errors]
          · intro h
            exact hs (StreamOK_next _ (StreamOK_next _ h))
          · intro q s hq
            simp only [Prod.mk.injEq, Except.ok.injEq] at hq
            obtain ⟨-, hs2⟩ := hq
            subst hs2
            constructor
            · intro ls hls
              cases hls
              exact ⟨lits, rfl⟩
            · intro rs hrs
              simp at hrs
    · rw [if_pos (by simpa using h2)]
      refine ⟨next_token_errors p, fun h => StreamOK_next p h, ?_⟩
      intro q s hq
      simp at hq
  · rw [if_pos (by simpa using h1)]
    refine ⟨rfl, fun h => h, ?_⟩
    intro q s hq
    simp at hq

theorem parse_return_props (p : Parser) :
    (p.parse_return_statement).1.errors = p.errors ∧
    (StreamOK p → StreamOK (p.parse_return_statement).1) ∧
    (∀ q s, p.parse_return_statement = (q, Except.ok s) → placeholder_shaped s) := by
  unfold Parser.parse_return_statement
  rcases hc : consume_expression p with ⟨q2, r⟩
  have hcp := consume_props (pMeasure p + 1) p []
  rw [consume_expression] at hc
  rw [hc] at hcp
  obtain ⟨he, hs⟩ := hcp
  simp only at he hs
  cases r with
  | error e =>
      refine ⟨he, fun h => hs h, ?_⟩
      intro q s hq
      simp at hq
  | ok lits =>
      refine ⟨he, fun h => hs h, ?_⟩
      intro q s hq
      simp only [Prod.mk.injEq, Except.ok.injEq] at hq
      obtain ⟨-, hs2⟩ := hq
      subst hs2
      constructor
      · intro ls hls
        simp at hls
      · intro rs hrs
        cases hrs
        exact ⟨lits, rfl⟩

theorem dispatch_props (p : Parser) (line_num line_num2 : Nat) (q : Parser)
    (opt : Option ast.Statement)
    (hd : parse_statement_dispatch p line_num = some (q, line_num2, opt))
    (hnl : p.current_token.type ≠ TokenType.NewLine) :
    line_num2 = line_num ∧
    (∃ extra, q.errors = p.errors ++ extra ∧
      ∀ e ∈ extra, e.line_num = line_num ∧ e.char_offset = 0) ∧
    (StreamOK p → StreamOK q) ∧
    (∀ s, opt = some s → placeholder_shaped s) := by
  unfold parse_statement_dispatch at hd
  split at hd
  · exact absurd (by assumption) hnl
  · obtain ⟨herr, hok, hshape⟩ := parse_let_props p
    split at hd <;> rename_i q2 x harm <;>
      simp only [Option.some.injEq, Prod.mk.injEq] at hd <;>
      obtain ⟨hq, hl, ho⟩ := hd <;> subst hq <;> subst hl <;> subst ho
    · rw [harm] at herr hok
      refine ⟨rfl, ⟨[], by simpa using herr, by simp⟩, hok, ?_⟩
      intro s hs
      simp only [Option.some.injEq] at hs
      subst hs
      exact hshape _ _ harm
    · rw [harm] at herr hok
      refine ⟨rfl, ⟨[ParserError.new x line_num 0], by simpa using herr, ?_⟩,
        fun h => StreamOK_errors _ _ (hok h), ?_⟩
      · intro e he
        simp only [List.mem_singleton] at he
        subst he
        exact ⟨rfl, rfl⟩
      · intro s hs
        simp at hs
  · simp [Parser.parse_if_statement] at hd
  · obtain ⟨herr, hok, hshape⟩ := parse_return_props p
    split at hd <;> rename_i q2 x harm <;>
      simp only [Option.some.injEq, Prod.mk.injEq] at hd <;>
      obtain ⟨hq, hl, ho⟩ := hd <;> subst hq <;> subst hl <;> subst ho
    · rw [harm] at herr hok
      refine ⟨rfl, ⟨[], by simpa using herr, by simp⟩, hok, ?_⟩
      intro s hs
      simp only [Option.some.injEq] at hs
      subst hs
      exact hshape _ _ harm
    · rw [harm] at herr hok
      refine ⟨rfl, ⟨[ParserError.new x line_num 0], by simpa using herr, ?_⟩,
        fun h => StreamOK_errors _ _ (hok h), ?_⟩
      · intro e he
        simp only [List.mem_singleton] at he
        subst he
        exact ⟨rfl, rfl⟩
      · intro s hs
        simp at hs
  · simp only [Option.some.injEq, Prod.mk.injEq] at hd
    obtain ⟨hq, hl, ho⟩ := hd
    subst hq
    subst hl
    subst ho
    refine ⟨rfl, ⟨[ParserError.new
        ("Unsupported token: '" ++ p.current_token.literal ++ "'") line_num 0],
      rfl, ?_⟩, fun h => StreamOK_errors _ _ h, ?_⟩
    · intro e he
      simp only [List.mem_singleton] at he
      subst he
      exact ⟨rfl, rfl⟩
    · intro s hs
      simp at hs

theorem If_not_emitted : TokenType.If ∉ emitted_types := by
  decide

theorem NewLine_not_emitted : TokenType.NewLine ∉ emitted_types := by
  decide

theorem dispatch_isSome (p : Parser) (line_num : Nat) (hs : StreamOK p) :
    (parse_statement_dispatch p line_num).isSome := by
  obtain ⟨h1, -, -⟩ := hs
  have hIf : p.current_token.type ≠ TokenType.If := by
    intro h0
    rw [h0] at h1
    exact If_not_emitted h1
  unfold parse_statement_dispatch
  split
  · simp
  · split <;> simp
  · exact absurd (by assumption) hIf
  · split <;> simp
  · simp

theorem parse_programF_isSome (fuel : Nat) (p : Parser) (stmts : List ast.Statement)
    (line_num : Nat) (hs : StreamOK p) :
    (parse_programF fuel p stmts line_num).isSome := by
  induction fuel generalizing p stmts line_num with
  | zero => simp [parse_programF]
  | succ n ih =>
      simp only [parse_programF]
      by_cases hpeek : p.peek_token.type = TokenType.EOF
      · rw [if_pos hpeek]
        simp
      · rw [if_neg hpeek]
        rcases hd : parse_statement_dispatch p line_num with _ | ⟨q, line_num2, opt⟩
        · have := dispatch_isSome p line_num hs
          rw [hd] at this
          simp at this
        · have hnl : p.current_token.type ≠ TokenType.NewLine := by
            obtain ⟨h1, -, -⟩ := hs
            intro h0
            rw [h0] at h1
            exact NewLine_not_emitted h1
          obtain ⟨-, -, hokq, -⟩ := dispatch_props p line_num line_num2 q opt hd hnl
          cases opt <;> simp only <;> exact ih q.next_token _ _ (StreamOK_next q (hokq hs))

theorem parse_programF_invariant (fuel : Nat) (p : Parser) (stmts : List ast.Statement)
    (res : List ast.Statement × Parser) (hs : StreamOK p)
    (h : parse_programF fuel p stmts 1 = some res) :
    (ErrOK p.errors → ErrOK res.2.errors) ∧
    ((∀ s ∈ stmts, placeholder_shaped s) → ∀ s ∈ res.1, placeholder_shaped s) := by
  induction fuel generalizing p stmts with
  | zero =>
      simp only [parse_programF, Option.some.injEq] at h
      subst h
      exact ⟨fun he => he, fun hsh => hsh⟩
  | succ n ih =>
      simp only [parse_programF] at h
      by_cases hpeek : p.peek_token.type = TokenType.EOF
      · rw [if_pos hpeek] at h
        simp only [Option.some.injEq] at h
        subst h
        exact ⟨fun he => he, fun hsh => hsh⟩
      · rw [if_neg hpeek] at h
        rcases hd : parse_statement_dispatch p 1 with _ | ⟨q, line_num2, opt⟩
        · rw [hd] at h
          simp at h
        · rw [hd] at h
          have hnl : p.current_token.type ≠ TokenType.NewLine := by
            obtain ⟨h1, -, -⟩ := hs
            intro h0
            rw [h0] at h1
            exact NewLine_not_emitted h1
          obtain ⟨hline, ⟨extra, herr, hextra⟩, hokq, hshape⟩ :=
            dispatch_props p 1 line_num2 q opt hd hnl
          subst hline
          have hsq : StreamOK q.next_token := StreamOK_next q (hokq hs)
          cases opt with
          | none =>
              simp only at h
              obtain ⟨ih1, ih2⟩ := ih q.next_token stmts hsq h
              refine ⟨?_, ih2⟩
              intro he
              apply ih1
              rw [next_token_errors, herr]
              intro e he2
              rcases List.mem_append.mp he2 with h3 | h3
              · exact he e h3
              · exact hextra e h3
          | some s =>
              simp only at h
              obtain ⟨ih1, ih2⟩ := ih q.next_token (stmts ++ [s]) hsq h
              refine ⟨?_, ?_⟩
              · intro he
                apply ih1
                rw [next_token_errors, herr]
                intro e he2
                rcases List.mem_append.mp he2 with h3 | h3
                · exact he e h3
                · exact hextra e h3
              · intro hsh
                apply ih2
                intro u hu
                rcases List.mem_append.mp hu with h3 | h3
                · exact hsh u h3
                · rw [List.mem_singleton] at h3
                  subst h3
                  exact hshape u rfl

theorem Parser_new_props (text : List Char) (p : Parser)
    (h : Parser.new text = some p) :
    StreamOK p ∧ p.errors = [] := by
  unfold Parser.new at h
  cases hlx : Lexer.new text with
  | none =>
      rw [hlx] at h
      simp at h
  | some lexer =>
      rw [hlx] at h
      simp only [Option.some.injEq] at h
      subst h
      have hmem : ∀ t ∈ tokenize lexer, t.type ∈ emitted_types :=
        fun t ht => tokenize_type_mem lexer t ht
      refine ⟨⟨?_, ?_, ?_⟩, rfl⟩
      · cases hts : tokenize lexer with
        | nil => exact eof_token_type_mem
        | cons a as =>
            simp only [hts, List.headD_cons]
            exact hmem a (by rw [hts]; exact List.mem_cons_self _ _)
      · cases hts : tokenize lexer with
        | nil => exact eof_token_type_mem
        | cons a as =>
            cases as with
            | nil => exact eof_token_type_mem
            | cons b bs =>
                simp only [hts, List.tail_cons, List.headD_cons]
                exact hmem b (by rw [hts]; simp)
      · intro t ht
        apply hmem t
        have h1 : t ∈ (tokenize lexer).tail := List.mem_of_mem_tail ht
        exact List.mem_of_mem_tail h1

/-! ### Helper facts for the claims about the lexer's character rules -/

theorem skip_whitspace_id (st : Lexer) (h : WHITESPACE.contains st.char = false) :
    st.skip_whitspace = st := by
  have hn : ¬ (WHITESPACE.contains st.char = true) := by
    intro hc
    rw [h] at hc
    exact Bool.false_ne_true hc
  rw [skip_whitspace_eq, if_neg hn]

theorem single_char_token_illegal (c : Char)
    (h : c ∉ ['=', ',', '+', ';', '(', ')', '\x7b', '\x7d', '\x00']) :
    single_char_token c = Token.new TokenType.Illegal c.toString := by
  unfold single_char_token
  split <;> simp_all

/-! ### The claims -/

/-- C1: for every input text accepted at construction, `parse_program`
returns a `Program` plus a list of diagnostics without aborting the
process: the `todo!()` panic inside `parse_if_statement` is unreachable
because the lexer never emits a `TokenType.If` token (the text `if`
lexes as an identifier), so no call path of the parser or the lexer
panics — including inputs whose statement dispatch sees an `if` in the
source. -/
theorem C1_parse_program_never_panics :
    (∀ st : Lexer, (st.next_token).1.type ≠ TokenType.If) ∧
    (∀ (text : List Char) (p : Parser), Parser.new text = some p →
      (p.parse_program).isSome) := by
  constructor
  · intro st h0
    have hmem := next_token_type_mem st
    rw [h0] at hmem
    exact If_not_emitted hmem
  · intro text p hnew
    obtain ⟨hs, -⟩ := Parser_new_props text p hnew
    unfold Parser.parse_program
    have hsome := parse_programF_isSome (pMeasure p + 1) p [] 1 hs
    rcases hres : parse_programF (pMeasure p + 1) p [] 1 with _ | ⟨stmts, q⟩
    · simp [hres] at hsome
    · simp

/-- C1 witness: the input `"if (x);"`, whose statement dispatch sees the
literal `if`, is accepted at construction and parses without panicking. -/
theorem C1_parse_program_never_panics_witness :
    Parser.new (("if (x);").data) = some
      { tokens := [Token.new TokenType.Ident "x", Token.new TokenType.RParen ")",
          Token.new TokenType.Semicolon ";", Token.new TokenType.EOF ""],
        current_token := Token.new TokenType.Ident "if",
        peek_token := Token.new TokenType.LParen "(",
        errors := [] } ∧
    (Parser.parse_program
      { tokens := [Token.new TokenType.Ident "x", Token.new TokenType.RParen ")",
          Token.new TokenType.Semicolon ";", Token.new TokenType.EOF ""],
        current_token := Token.new TokenType.Ident "if",
        peek_token := Token.new TokenType.LParen "(",
        errors := [] }).isSome :=
  ⟨by decide, C1_parse_program_never_panics.2 (("if (x);").data) _ (by decide)⟩

/-- C2 counterexample: on the round-trip input the diagnostics list is
not empty — after the `add` statement's scan stops at the semicolon
inside the function body, the trailing `}` and `;` tokens hit the
unsupported-token dispatch arm, so the parse records two diagnostics
where the claim demands zero. -/
theorem C2_roundtrip_counterexample :
    (parse_text c2input).map (fun r => r.2.errors) =
      some [ParserError.new "Unsupported token: '\x7d'" 1 0,
        ParserError.new "Unsupported token: ';'" 1 0] ∧
    (parse_text c2input).map (fun r => r.2.errors) ≠ some [] := by
  constructor
  · decide
  · decide

/-- C2 (amended): on the round-trip input, repeated `next_token` calls
reproduce the keyword/identifier/operator/delimiter sequence in source
order ending in the end-of-input token, and `parse_program` returns a
Program of exactly 4 `LetStatement`s named `five, ten, add, result` in
that order — but with a diagnostics list of exactly two entries
(`Unsupported token: '}'` and `Unsupported token: ';'`), not an empty
one. -/
theorem C2_roundtrip_amended :
    tokenize_text c2input = some
      [Token.new TokenType.Let "let", Token.new TokenType.Ident "five",
       Token.new TokenType.Assign "=", Token.new TokenType.Int "5",
       Token.new TokenType.Semicolon ";",
       Token.new TokenType.Let "let", Token.new TokenType.Ident "ten",
       Token.new TokenType.Assign "=", Token.new TokenType.Int "10",
       Token.new TokenType.Semicolon ";",
       Token.new TokenType.Let "let", Token.new TokenType.Ident "add",
       Token.new TokenType.Assign "=", Token.new TokenType.Function "fn",
       Token.new TokenType.LParen "(", Token.new TokenType.Ident "x",
       Token.new TokenType.Comma ",", Token.new TokenType.Ident "y",
       Token.new TokenType.RParen ")", Token.new TokenType.LBrace "\x7b",
       Token.new TokenType.Ident "x", Token.new TokenType.Plus "+",
       Token.new TokenType.Ident "y", Token.new TokenType.Semicolon ";",
       Token.new TokenType.RBrace "\x7d", Token.new TokenType.Semicolon ";",
       Token.new TokenType.Let "let", Token.new TokenType.Ident "result",
       Token.new TokenType.Assign "=", Token.new TokenType.Ident "add",
       Token.new TokenType.LParen "(", Token.new TokenType.Ident "five",
       Token.new TokenType.Comma ",", Token.new TokenType.Ident "ten",
       Token.new TokenType.RParen ")", Token.new TokenType.Semicolon ";",
       Token.new TokenType.EOF ""] ∧
    (parse_text c2input).map
        (fun r => (let_identifier_names r.1, r.1.statements.length, r.2.errors)) =
      some (["five", "ten", "add", "result"], 4,
        [ParserError.new "Unsupported token: '\x7d'" 1 0,
         ParserError.new "Unsupported token: ';'" 1 0]) := by
  constructor
  · decide
  · decide

/-- C3 counterexample: for the input `"let = 5;"` the diagnostics list
has three entries, not exactly one — after the failed let statement the
parser re-dispatches on the remaining `=` and `5` tokens and records an
unsupported-token diagnostic for each. -/
theorem C3_single_diagnostic_counterexample :
    (parse_text (("let = 5;").data)).map (fun r => r.2.errors.length) = some 3 ∧
    (3 : Nat) ≠ 1 := by
  constructor
  · decide
  · decide

/-- C3 (amended): for `"let = 5;"`, `parse_program` terminates without
panicking and produces exactly three diagnostics; the first names the
expected identifier and the literal actually found (`=`), the other two
report the leftover `=` and `5` tokens as unsupported. -/
theorem C3_diagnostics_amended :
    (parse_text (("let = 5;").data)).map (fun r => (r.1.statements, r.2.errors)) =
      some ([], [ParserError.new "Expected identifier, found '='" 1 0,
        ParserError.new "Unsupported token: '='" 1 0,
        ParserError.new "Unsupported token: '5'" 1 0]) ∧
    (parse_text (("let = 5;").data)).isSome := by
  constructor
  · decide
  · decide

/-- C4 counterexample: for the input `"5;"` (a bare integer literal in
statement position) `parse_program` appends no statement at all — there
is no expression-statement path — and instead records the diagnostic
`Unsupported token: '5'`. -/
theorem C4_expression_statement_counterexample :
    (parse_text (("5;").data)).map (fun r => (r.1.statements, r.2.errors)) =
      some ([], [ParserError.new "Unsupported token: '5'" 1 0]) ∧
    [ParserError.new "Unsupported token: '5'" 1 0] ≠ ([] : List ParserError) := by
  constructor
  · decide
  · decide

/-- C4 (amended): for every statement whose first token is not a
line-break marker, `let`, `return`, or `if`, the statement dispatch of
`parse_program` takes the default arm: it records the diagnostic
`Unsupported token: '<literal>'` with the current line number and
char offset 0, appends no statement, and there is no
expression-statement path at all. -/
theorem C4_unsupported_token_amended :
    ∀ (p : Parser) (line_num : Nat),
      p.current_token.type ∉
        [TokenType.NewLine, TokenType.Let, TokenType.Return, TokenType.If] →
      parse_statement_dispatch p line_num =
        some ({ p with errors := p.errors ++
            [ParserError.new ("Unsupported token: '" ++ p.current_token.literal ++ "'")
              line_num 0] },
          line_num, none) := by
  intro p line_num h
  unfold parse_statement_dispatch
  cases htype : p.current_token.type <;>
    first
      | rfl
      | (rw [htype] at h; simp at h)

/-- C4 witness: the amended dispatch behaviour at a concrete parser
state whose current token is the integer literal `5`. -/
theorem C4_unsupported_token_amended_witness :
    parse_statement_dispatch
      { tokens := [], current_token := Token.new TokenType.Int "5",
        peek_token := Token.new TokenType.Semicolon ";", errors := [] } 1 =
      some ({ tokens := [],
              current_token := Token.new TokenType.Int "5",
              peek_token := Token.new TokenType.Semicolon ";",
              errors := [] ++ [ParserError.new
                ("Unsupported token: '" ++ (Token.new TokenType.Int "5").literal ++ "'") 1 0] },
        1, none) :=
  C4_unsupported_token_amended
    { tokens := [], current_token := Token.new TokenType.Int "5",
      peek_token := Token.new TokenType.Semicolon ";", errors := [] } 1 (by decide)

/-- C5 counterexample: the maximal identifier-class run `true` does not
lex as a keyword kind — the keyword table holds only `fn` and `let`, so
`true` lexes as an identifier token (and `TokenType.True` is never
produced). -/
theorem C5_keyword_table_counterexample :
    tokenize_text (("true").data) =
      some [Token.new TokenType.Ident "true", Token.new TokenType.EOF ""] ∧
    TokenType.Ident ≠ TokenType.True := by
  constructor
  · decide
  · decide

/-- C5 (amended): the keyword table holds exactly the two strings `fn`
and `let`: an identifier-class run is classified as `Function` when it
is `fn`, as `Let` when it is `let`, and as an identifier in every other
case, case-sensitively (`Let` ≠ `let`); the five remaining spec keywords
`true,false,if,else,return` all lex as identifiers. -/
theorem C5_keyword_table_amended :
    (∀ s : String, keyword_or_ident s =
      if s = "fn" then TokenType.Function
      else if s = "let" then TokenType.Let
      else TokenType.Ident) ∧
    tokenize_text (("fn").data) =
      some [Token.new TokenType.Function "fn", Token.new TokenType.EOF ""] ∧
    tokenize_text (("let").data) =
      some [Token.new TokenType.Let "let", Token.new TokenType.EOF ""] ∧
    tokenize_text (("Let").data) =
      some [Token.new TokenType.Ident "Let", Token.new TokenType.EOF ""] ∧
    tokenize_text (("true false if else return").data) =
      some [Token.new TokenType.Ident "true", Token.new TokenType.Ident "false",
        Token.new TokenType.Ident "if", Token.new TokenType.Ident "else",
        Token.new TokenType.Ident "return", Token.new TokenType.EOF ""] := by
  refine ⟨?_, by decide, by decide, by decide, by decide⟩
  intro s
  by_cases h1 : s = "fn"
  · subst h1
    rfl
  · by_cases h2 : s = "let"
    · subst h2
      rfl
    · rw [if_neg h1, if_neg h2]
      have b1 : (s == "fn") = false := by
        simp [h1]
      have b2 : (s == "let") = false := by
        simp [h2]
      simp [keyword_or_ident, KEYWORDS, List.lookup, b1, b2]

/-- C6 counterexample: the characters of `==`, adjacent in the input,
lex as two single-character assignment tokens — the lexer has no
one-character lookahead, so maximal munch fails exactly where the claim
asserts it. -/
theorem C6_maximal_munch_counterexample :
    tokenize_text (("==").data) =
      some [Token.new TokenType.Assign "=", Token.new TokenType.Assign "=",
        Token.new TokenType.EOF ""] ∧
    (Token.new TokenType.Assign "=").type ≠ TokenType.Eq := by
  constructor
  · decide
  · decide

/-- C6 (amended): the lexer has no two-character operators: `==` lexes
as two assignment tokens, `!=` as an illegal token (`!`) followed by an
assignment token, `=` alone as the assignment token, and `!` alone as an
illegal token (never a bang token). -/
theorem C6_operator_lexing_amended :
    tokenize_text (("==").data) =
      some [Token.new TokenType.Assign "=", Token.new TokenType.Assign "=",
        Token.new TokenType.EOF ""] ∧
    tokenize_text (("!=").data) =
      some [Token.new TokenType.Illegal "!", Token.new TokenType.Assign "=",
        Token.new TokenType.EOF ""] ∧
    tokenize_text (("=").data) =
      some [Token.new TokenType.Assign "=", Token.new TokenType.EOF ""] ∧
    tokenize_text (("!").data) =
      some [Token.new TokenType.Illegal "!", Token.new TokenType.EOF ""] := by
  refine ⟨by decide, by decide, by decide, by decide⟩

/-- C7: the identifier character class of the code is NOT `[A-Za-z_]`:
the half-open byte ranges `b'a'..b'z'` and `b'A'..b'Z'` exclude `z` and
`Z`, contradicting the code's own doc comment ("Any lower/upper case
alphabetic char"). The input `"z"` consequently lexes as an illegal
token instead of an identifier. -/
theorem C7_letter_class_evaluation :
    is_letter ('z') = false ∧ is_letter ('Z') = false ∧
    is_letter ('a') = true ∧ is_letter ('y') = true ∧
    is_letter ('A') = true ∧ is_letter ('Y') = true ∧ is_letter ('_') = true ∧
    tokenize_text (("z").data) =
      some [Token.new TokenType.Illegal "z", Token.new TokenType.EOF ""] ∧
    tokenize_text (("az").data) =
      some [Token.new TokenType.Ident "a", Token.new TokenType.Illegal "z",
        Token.new TokenType.EOF ""] := by
  refine ⟨by decide, by decide, by decide, by decide, by decide, by decide, by decide,
    by decide, by decide⟩

/-- C8: lexer construction fails exactly on empty input, and for any
lexer state whose current character matches no rule — not whitespace,
not an identifier character, not a digit, and none of the nine matched
single characters — `next_token` returns an illegal token carrying that
character as its literal (and advances by one character). Every
`next_token` call is total by construction; the `*_eq` lemmas above show
the fuelled loops satisfy the Rust loop recurrences, i.e. never fail. -/
theorem C8_construction_and_illegal :
    (∀ text : List Char, (Lexer.new text).isSome ↔ text ≠ []) ∧
    (∀ st : Lexer,
      WHITESPACE.contains st.char = false →
      is_letter st.char = false →
      st.char.isDigit = false →
      st.char ∉ ['=', ',', '+', ';', '(', ')', '\x7b', '\x7d', '\x00'] →
      st.next_token = (Token.new TokenType.Illegal st.char.toString, st.read_char)) := by
  constructor
  · intro text
    cases text <;> simp [Lexer.new]
  · intro st h1 h2 h3 h4
    have hid := skip_whitspace_id st h1
    simp only [Lexer.next_token, hid]
    rw [if_neg (by simp [h2]), if_neg (by simp [h3])]
    rw [single_char_token_illegal st.char h4]

/-- C8 witness: construction succeeds on the one-character input `#`,
and from the corresponding state `next_token` yields the illegal token
`#`. -/
theorem C8_construction_and_illegal_witness :
    (Lexer.new ['#']).isSome ∧
    (Lexer.next_token { input := ['#'], position := 0, read_position := 1, char := '#' }) =
      (Token.new TokenType.Illegal (Char.toString '#'),
       Lexer.read_char { input := ['#'], position := 0, read_position := 1, char := '#' }) :=
  ⟨(C8_construction_and_illegal.1 ['#']).mpr (by decide),
   C8_construction_and_illegal.2
     { input := ['#'], position := 0, read_position := 1, char := '#' }
     (by decide) (by decide) (by decide) (by decide)⟩

/-- C9: the lexer never emits the line-break marker token (`\n` and `\r`
are skipped as plain whitespace), so the `NewLine` dispatch arm that is
the only place incrementing the parser's line counter never fires, and
every diagnostic in the error list after `parse_program` returns has
line number 1 and character offset 0. -/
theorem C9_diagnostics_line_one :
    (∀ st : Lexer, (st.next_token).1.type ≠ TokenType.NewLine) ∧
    (∀ (text : List Char) (p : Parser) (res : ast.Program × Parser),
      Parser.new text = some p → p.parse_program = some res →
      ∀ e ∈ res.2.errors, e.line_num = 1 ∧ e.char_offset = 0) := by
  constructor
  · intro st h0
    have hmem := next_token_type_mem st
    rw [h0] at hmem
    exact NewLine_not_emitted hmem
  · intro text p res hnew hparse e he
    obtain ⟨hs, herr⟩ := Parser_new_props text p hnew
    unfold Parser.parse_program at hparse
    rcases hres : parse_programF (pMeasure p + 1) p [] 1 with _ | ⟨stmts, q⟩
    · simp [hres] at hparse
    · simp only [hres, Option.some.injEq] at hparse
      subst hparse
      obtain ⟨hE, -⟩ := parse_programF_invariant _ p [] (stmts, q) hs hres
      have hEok : ErrOK q.errors := by
        apply hE
        rw [herr]
        intro e2 he2
        simp at he2
      exact hEok e he

/-- C9 witness: on the input `"let = 5;"` — whose parse records three
diagnostics — the first diagnostic indeed carries line 1 and offset 0,
obtained by instantiating the theorem at that input. -/
theorem C9_diagnostics_line_one_witness :
    (Lexer.next_token
      { input := ['\n'], position := 0, read_position := 1, char := '\n' }).1.type ≠
        TokenType.NewLine ∧
    (ParserError.new "Expected identifier, found '='" 1 0).line_num = 1 ∧
    (ParserError.new "Expected identifier, found '='" 1 0).char_offset = 0 :=
  ⟨C9_diagnostics_line_one.1 _,
   C9_diagnostics_line_one.2 (("let = 5;").data)
     { tokens := [Token.new TokenType.Int "5", Token.new TokenType.Semicolon ";",
         Token.new TokenType.EOF ""],
       current_token := Token.new TokenType.Let "let",
       peek_token := Token.new TokenType.Assign "=",
       errors := [] }
     ({ statements := [] },
      { tokens := [],
        current_token := Token.new TokenType.Semicolon ";",
        peek_token := Token.new TokenType.EOF "",
        errors := [ParserError.new "Expected identifier, found '='" 1 0,
          ParserError.new "Unsupported token: '='" 1 0,
          ParserError.new "Unsupported token: '5'" 1 0] })
     (by decide) (by decide)
     (ParserError.new "Expected identifier, found '='" 1 0) (by decide)⟩

/-- C10: every `LetStatement` and `ReturnStatement` in a program
returned by `parse_program` holds as its value a
`placeholder_expression`: exactly one token of the illegal kind whose
literal is the space-join of the literals scanned between the statement
head and its terminating semicolon with `";"` filtered out; no
structured expression node exists anywhere (the `Expression` type is a
bare token list). The two closed conjuncts exhibit the joined literal
`"5 + 7"` for a let statement parsed from source and for
`parse_return_statement` run on a `return 5 + 7;` token stream. -/
theorem C10_placeholder_expressions :
    (∀ lits : List String, (placeholder_expression lits).tokens =
      [{ type := TokenType.Illegal,
         literal := String.intercalate " " (lits.filter (fun s => s != ";")) }]) ∧
    (∀ (text : List Char) (p : Parser) (res : ast.Program × Parser),
      Parser.new text = some p → p.parse_program = some res →
      ∀ s ∈ res.1.statements, placeholder_shaped s) ∧
    ((parse_text (("let x = 5 + 7;").data)).map (fun r => r.1.statements) =
      some [ast.Statement.Assignment
        { token := Token.new TokenType.Ident "x",
          identifier := { name := "x" },
          value := { tokens := [Token.new TokenType.Illegal "5 + 7"] } }]) ∧
    (Parser.parse_return_statement
      { tokens := [Token.new TokenType.Plus "+", Token.new TokenType.Int "7",
          Token.new TokenType.Semicolon ";", Token.new TokenType.EOF ""],
        current_token := Token.new TokenType.Return "return",
        peek_token := Token.new TokenType.Int "5", errors := [] } =
      ({ tokens := [],
         current_token := Token.new TokenType.Semicolon ";",
         peek_token := Token.new TokenType.EOF "",
         errors := [] },
       Except.ok (ast.Statement.Return
        { token := Token.new TokenType.Return "return",
          value := { tokens := [Token.new TokenType.Illegal "5 + 7"] } }))) := by
  refine ⟨fun lits => rfl, ?_, by decide, by rfl⟩
  intro text p res hnew hparse s hmem
  obtain ⟨hs, -⟩ := Parser_new_props text p hnew
  unfold Parser.parse_program at hparse
  rcases hres : parse_programF (pMeasure p + 1) p [] 1 with _ | ⟨stmts, q⟩
  · simp [hres] at hparse
  · simp only [hres, Option.some.injEq] at hparse
    subst hparse
    obtain ⟨-, hshape⟩ := parse_programF_invariant _ p [] (stmts, q) hs hres
    apply hshape
    · intro u hu
      simp at hu
    · exact hmem

/-- C10 witness: the placeholder shape of the concrete let statement
parsed from `"let x = 5 + 7;"`, obtained by instantiating the theorem at
that input. -/
theorem C10_placeholder_expressions_witness :
    placeholder_shaped (ast.Statement.Assignment
      { token := Token.new TokenType.Ident "x",
        identifier := { name := "x" },
        value := { tokens := [Token.new TokenType.Illegal "5 + 7"] } }) :=
  C10_placeholder_expressions.2.1 (("let x = 5 + 7;").data)
    { tokens := [Token.new TokenType.Assign "=", Token.new TokenType.Int "5",
        Token.new TokenType.Plus "+", Token.new TokenType.Int "7",
        Token.new TokenType.Semicolon ";", Token.new TokenType.EOF ""],
      current_token := Token.new TokenType.Let "let",
      peek_token := Token.new TokenType.Ident "x",
      errors := [] }
    ({ statements := [ast.Statement.Assignment
        { token := Token.new TokenType.Ident "x",
          identifier := { name := "x" },
          value := { tokens := [Token.new TokenType.Illegal "5 + 7"] } }] },
     { tokens := [],
       current_token := Token.new TokenType.EOF "",
       peek_token := Token.new TokenType.EOF "",
       errors := [] })
    (by decide) (by decide)
    (ast.Statement.Assignment
      { token := Token.new TokenType.Ident "x",
        identifier := { name := "x" },
        value := { tokens := [Token.new TokenType.Illegal "5 + 7"] } })
    (by decide)
